import Mathlib

/-
Verification development for the sparrow-rs simulation core.

The Rust sources are shallowly embedded in Lean:
* `f32` scalars are modelled as `ℚ` (exact arithmetic; where a claim depends on
  floating-point-only behaviour this is noted at the claim).
* the sequentially consumed random source (`rand::RngCore`) is modelled as an
  explicit stream of uniform draws in `[0,1)` together with a cursor, threaded
  through every function that consumes randomness, exactly as the Rust code
  threads `&mut dyn RngCore`.
* external library mathematics (nalgebra norms, rotations, `atan2`) is kept
  abstract as explicitly passed function parameters; every piece of arithmetic
  and control flow belonging to the repository itself is embedded concretely.
-/

/-- A deterministic random source: `seq` is the stream of uniform draws in
`[0,1)` produced by the underlying generator, `idx` the cursor of the next
draw.  Models `&mut dyn RngCore` threaded through the Rust code. -/
structure Rng where
  seq : Nat → ℚ
  idx : Nat

/-- Consume one uniform draw (models `rng.gen::<f32>()`, which samples
uniformly from `[0, 1)`). -/
def Rng.next (r : Rng) : ℚ × Rng :=
  (r.seq r.idx, { r with idx := r.idx + 1 })

/-- A random source is valid when every draw of the stream lies in `[0,1)`,
the range of `Standard`-distribution float sampling in `rand`. -/
def Rng.valid (r : Rng) : Prop := ∀ i, 0 ≤ r.seq i ∧ r.seq i < 1

/- ------------------------------------------------------------------ -/
/- Genetic algorithm: src/libs/genetic-algorithm/src/lib.rs            -/
/- ------------------------------------------------------------------ -/

/-- `GaussianMutation::mutate` (src/libs/genetic-algorithm/src/lib.rs:146-155).
A chromosome is a `Vec<f32>` of genes; for each gene the code draws a sign
(`rng.gen_bool(0.5)`, modelled as draw `< 1/2`), then the perturb decision
(`rng.gen_bool(self.chance as f64)`, modelled as draw `< chance`), and only
inside the taken branch the magnitude factor `rng.gen::<f32>()`. -/
def gaussianMutate (chance magnitude : ℚ) : Rng → List ℚ → List ℚ × Rng
  | rng, [] => ([], rng)
  | rng, g :: gs =>
    let p1 := rng.next
    let sign : ℚ := if p1.1 < 1/2 then -1 else 1
    let p2 := p1.2.next
    if p2.1 < chance then
      let p3 := p2.2.next
      let rest := gaussianMutate chance magnitude p3.2 gs
      ((g + magnitude * sign * p3.1) :: rest.1, rest.2)
    else
      let rest := gaussianMutate chance magnitude p2.2 gs
      (g :: rest.1, rest.2)

/-- Number of genes of `child` for which the perturb decision of
`gaussianMutate` comes out positive (the same decisions, replayed on the same
stream). -/
def perturbCount (chance : ℚ) : Rng → List ℚ → Nat
  | _, [] => 0
  | rng, _ :: gs =>
    let p1 := rng.next
    let p2 := p1.2.next
    if p2.1 < chance then
      let p3 := p2.2.next
      1 + perturbCount chance p3.2 gs
    else
      perturbCount chance p2.2 gs

/-- Population statistics over one generation
(`Statistics::new`, src/libs/genetic-algorithm/src/lib.rs:216-238). -/
structure Statistics where
  min_fitness : ℚ
  max_fitness : ℚ
  avg_fitness : ℚ
deriving DecidableEq

/-- One iteration of the `Statistics::new` loop body: update the running
minimum, maximum and sum with one individual's fitness. -/
def statStep {I : Type} (fitness : I → ℚ) (acc : ℚ × ℚ × ℚ) (ind : I) : ℚ × ℚ × ℚ :=
  (min acc.1 (fitness ind), max acc.2.1 (fitness ind), acc.2.2 + fitness ind)

/-- `Statistics::new`: seeds min and max with the first individual's fitness,
then folds once over the whole population accumulating min, max and sum;
the average is the sum divided by the population size.  The Rust code asserts
the population non-empty; the `[]` case below is that unreachable branch. -/
def statisticsNew {I : Type} (fitness : I → ℚ) (pop : List I) : Statistics :=
  match pop with
  | [] => ⟨0, 0, 0⟩
  | p :: _ =>
    let f0 := fitness p
    let acc := pop.foldl (statStep fitness) (f0, f0, 0)
    { min_fitness := acc.1, max_fitness := acc.2.1,
      avg_fitness := acc.2.2 / (pop.length : ℚ) }

/-- The `Individual` trait: `create`, `fitness`, `chromosome`. -/
structure IndividualOps (I : Type) where
  create : List ℚ → I
  fitness : I → ℚ
  chromosome : I → List ℚ

/-- The three strategy roles held by `GeneticAlgorithm`: a `SelectionMethod`,
a boxed `CrossoverMethod` and a boxed `MutationMethod`, each threading the
random source. -/
structure GAMethods (I : Type) where
  select : Rng → List I → I × Rng
  crossover : Rng → List ℚ → List ℚ → List ℚ × Rng
  mutate : Rng → List ℚ → List ℚ × Rng

/-- The body of `GeneticAlgorithm::evolve`'s `(0..population.len()).map(..)`:
for each output slot select parent a, select parent b, crossover, mutate,
and rebuild an individual with `I::create`. -/
def evolveLoop {I : Type} (ops : IndividualOps I) (m : GAMethods I)
    (population : List I) : Nat → Rng → List I × Rng
  | 0, rng => ([], rng)
  | n + 1, rng =>
    let pa := m.select rng population
    let pb := m.select pa.2 population
    let child := m.crossover pb.2 (ops.chromosome pa.1) (ops.chromosome pb.1)
    let child2 := m.mutate child.2 child.1
    let rest := evolveLoop ops m population n child2.2
    (ops.create child2.1 :: rest.1, rest.2)

/-- `GeneticAlgorithm::evolve` (src/libs/genetic-algorithm/src/lib.rs:185-203):
produces one new individual per input slot and the `Statistics` of the
*input* population. -/
def gaEvolve {I : Type} (ops : IndividualOps I) (m : GAMethods I)
    (rng : Rng) (population : List I) : (List I × Statistics) × Rng :=
  let r := evolveLoop ops m population population.length rng
  ((r.1, statisticsNew ops.fitness population), r.2)

/- ------------------------------------------------------------------ -/
/- Helper lemmas about the statistics fold and the evolve loop         -/
/- ------------------------------------------------------------------ -/

lemma statFold_min {I : Type} (f : I → ℚ) :
    ∀ (l : List I) (a b s : ℚ),
      (l.foldl (statStep f) (a, b, s)).1 ≤ a
      ∧ ∀ x ∈ l, (l.foldl (statStep f) (a, b, s)).1 ≤ f x := by
  intro l
  induction l with
  | nil => intro a b s; exact ⟨le_refl a, by simp⟩
  | cons y ys ih =>
    intro a b s
    simp only [List.foldl_cons, statStep]
    refine ⟨le_trans (ih _ _ _).1 (min_le_left _ _), ?_⟩
    intro x hx
    rcases List.mem_cons.mp hx with h | h
    · subst h; exact le_trans (ih _ _ _).1 (min_le_right _ _)
    · exact (ih _ _ _).2 x h

lemma statFold_max {I : Type} (f : I → ℚ) :
    ∀ (l : List I) (a b s : ℚ),
      b ≤ (l.foldl (statStep f) (a, b, s)).2.1
      ∧ ∀ x ∈ l, f x ≤ (l.foldl (statStep f) (a, b, s)).2.1 := by
  intro l
  induction l with
  | nil => intro a b s; exact ⟨le_refl b, by simp⟩
  | cons y ys ih =>
    intro a b s
    simp only [List.foldl_cons, statStep]
    refine ⟨le_trans (le_max_left _ _) (ih _ _ _).1, ?_⟩
    intro x hx
    rcases List.mem_cons.mp hx with h | h
    · subst h; exact le_trans (le_max_right _ _) (ih _ _ _).1
    · exact (ih _ _ _).2 x h

lemma statFold_sum {I : Type} (f : I → ℚ) :
    ∀ (l : List I) (a b s : ℚ),
      (l.foldl (statStep f) (a, b, s)).2.2 = s + (l.map f).sum := by
  intro l
  induction l with
  | nil => intro a b s; simp
  | cons y ys ih =>
    intro a b s
    simp only [List.foldl_cons, statStep, List.map_cons, List.sum_cons]
    rw [ih]
    ring

lemma length_mul_le_sum {I : Type} (f : I → ℚ) (mq : ℚ) :
    ∀ (l : List I), (∀ x ∈ l, mq ≤ f x) → (l.length : ℚ) * mq ≤ (l.map f).sum := by
  intro l
  induction l with
  | nil => simp
  | cons y ys ih =>
    intro h
    simp only [List.map_cons, List.sum_cons, List.length_cons]
    have h1 : mq ≤ f y := h y (List.mem_cons_self _ _)
    have h2 := ih (fun x hx => h x (List.mem_cons_of_mem _ hx))
    push_cast
    linarith

lemma sum_le_length_mul {I : Type} (f : I → ℚ) (mq : ℚ) :
    ∀ (l : List I), (∀ x ∈ l, f x ≤ mq) → (l.map f).sum ≤ (l.length : ℚ) * mq := by
  intro l
  induction l with
  | nil => simp
  | cons y ys ih =>
    intro h
    simp only [List.map_cons, List.sum_cons, List.length_cons]
    have h1 : f y ≤ mq := h y (List.mem_cons_self _ _)
    have h2 := ih (fun x hx => h x (List.mem_cons_of_mem _ hx))
    push_cast
    linarith

lemma statisticsNew_valid {I : Type} (f : I → ℚ) (pop : List I) (h : pop ≠ []) :
    (statisticsNew f pop).min_fitness ≤ (statisticsNew f pop).avg_fitness
    ∧ (statisticsNew f pop).avg_fitness ≤ (statisticsNew f pop).max_fitness := by
  match pop, h with
  | p :: rest, _ =>
    simp only [statisticsNew]
    set l := p :: rest with hl
    have hn : (0 : ℚ) < (l.length : ℚ) := by
      simp [hl]
      positivity
    have hmin := statFold_min f l (f p) (f p) 0
    have hmax := statFold_max f l (f p) (f p) 0
    have hsum := statFold_sum f l (f p) (f p) 0
    set acc := l.foldl (statStep f) (f p, f p, 0) with hacc
    have hlo : (l.length : ℚ) * acc.1 ≤ (l.map f).sum :=
      length_mul_le_sum f acc.1 l hmin.2
    have hhi : (l.map f).sum ≤ (l.length : ℚ) * acc.2.1 :=
      sum_le_length_mul f acc.2.1 l hmax.2
    constructor
    · rw [le_div_iff₀ hn]
      rw [hsum] at *
      nlinarith
    · rw [div_le_iff₀ hn]
      rw [hsum] at *
      nlinarith

lemma evolveLoop_length {I : Type} (ops : IndividualOps I) (m : GAMethods I)
    (population : List I) : ∀ (n : Nat) (rng : Rng),
    (evolveLoop ops m population n rng).1.length = n := by
  intro n
  induction n with
  | zero => intro rng; rfl
  | succ k ih =>
    intro rng
    simp only [evolveLoop, List.length_cons]
    rw [ih]

/- ------------------------------------------------------------------ -/
/- Helper lemmas about GaussianMutation::mutate                        -/
/- ------------------------------------------------------------------ -/

lemma gaussianMutate_zero_chance (magnitude : ℚ) :
    ∀ (child : List ℚ) (rng : Rng), rng.valid →
      (gaussianMutate 0 magnitude rng child).1 = child := by
  intro child
  induction child with
  | nil => intro rng _; rfl
  | cons g gs ih =>
    intro rng hv
    have hcond : ¬ rng.seq (rng.idx + 1) < 0 := not_lt.mpr (hv (rng.idx + 1)).1
    simp only [gaussianMutate, Rng.next, hcond, if_false]
    exact congrArg (g :: ·) (ih _ hv)

lemma gaussianMutate_zero_magnitude (chance : ℚ) :
    ∀ (child : List ℚ) (rng : Rng),
      (gaussianMutate chance 0 rng child).1 = child := by
  intro child
  induction child with
  | nil => intro rng; rfl
  | cons g gs ih =>
    intro rng
    simp only [gaussianMutate, Rng.next]
    by_cases hcond : rng.seq (rng.idx + 1) < chance
    · simp only [hcond, if_true, zero_mul, add_zero]
      exact congrArg (g :: ·) (ih _)
    · simp only [hcond, if_false]
      exact congrArg (g :: ·) (ih _)

lemma gaussianMutate_full_chance_changes (magnitude : ℚ) (hm : 0 < magnitude) :
    ∀ (child : List ℚ) (rng : Rng), rng.valid → (∀ i, 0 < rng.seq i) →
      ∀ j, j < child.length →
        (gaussianMutate 1 magnitude rng child).1.getD j 0 ≠ child.getD j 0 := by
  intro child
  induction child with
  | nil => intro rng _ _ j hj; exact absurd hj (by simp)
  | cons g gs ih =>
    intro rng hv hpos j hj
    have hcond : rng.seq (rng.idx + 1) < 1 := (hv (rng.idx + 1)).2
    simp only [gaussianMutate, Rng.next, hcond, if_true]
    cases j with
    | zero =>
      simp only [List.getD_cons_zero]
      have hu : 0 < rng.seq (rng.idx + 1 + 1) := hpos (rng.idx + 1 + 1)
      intro heq
      have hz : magnitude * (if rng.seq rng.idx < 1/2 then (-1 : ℚ) else 1)
          * rng.seq (rng.idx + 1 + 1) = 0 := by linarith
      by_cases hs : rng.seq rng.idx < 1/2
      · rw [if_pos hs] at hz; nlinarith
      · rw [if_neg hs] at hz; nlinarith
    | succ k =>
      simp only [List.getD_cons_succ]
      exact ih ⟨rng.seq, rng.idx + 1 + 1 + 1⟩ hv hpos k (Nat.lt_of_succ_lt_succ hj)

/-- The constant-zero random stream: a valid random source (every draw is 0,
and 0 lies in the sampling range of rand floats). -/
def zeroRng : Rng := ⟨fun _ => 0, 0⟩

/-- A valid random stream drawing 1/2 at every position. -/
def halfRng : Rng := ⟨fun _ => 1/2, 0⟩

lemma zeroRng_valid : Rng.valid zeroRng := by
  intro i
  constructor
  · exact le_refl 0
  · norm_num [zeroRng]

lemma halfRng_valid : Rng.valid halfRng := by
  intro i
  constructor <;> norm_num [halfRng]

/- ------------------------------------------------------------------ -/
/- Claim theorems for the genetic algorithm                            -/
/- ------------------------------------------------------------------ -/

/-- C2: for every non-empty population of size N, `GeneticAlgorithm::evolve`
returns exactly N new individuals together with Statistics computed over the
input population satisfying min_fitness ≤ avg_fitness ≤ max_fitness.  The
statement is generic over the selection, crossover and mutation strategies,
exactly as the Rust `evolve` is. -/
theorem evolve_size_and_valid_stats {I : Type} (ops : IndividualOps I)
    (m : GAMethods I) (rng : Rng) (population : List I) (h : population ≠ []) :
    ((gaEvolve ops m rng population).1.1).length = population.length
    ∧ (gaEvolve ops m rng population).1.2.min_fitness
        ≤ (gaEvolve ops m rng population).1.2.avg_fitness
    ∧ (gaEvolve ops m rng population).1.2.avg_fitness
        ≤ (gaEvolve ops m rng population).1.2.max_fitness := by
  refine ⟨evolveLoop_length ops m population population.length rng, ?_, ?_⟩
  · exact (statisticsNew_valid ops.fitness population h).1
  · exact (statisticsNew_valid ops.fitness population h).2

/-- Concrete instantiation used to witness C2: individuals are rationals,
fitness is the identity, the strategies are the simplest ones of the right
shape. -/
def c2Ops : IndividualOps ℚ :=
  { create := fun l => l.sum, fitness := id, chromosome := fun q => [q] }

def c2Methods : GAMethods ℚ :=
  { select := fun r pop => (pop.headD 0, r)
    crossover := fun r a _ => (a, r)
    mutate := fun r c => (c, r) }

/-- Witness for C2 at the concrete population `[1, 2]`. -/
theorem evolve_size_and_valid_stats_witness :
    ((gaEvolve c2Ops c2Methods zeroRng [1, 2]).1.1).length = 2
    ∧ (gaEvolve c2Ops c2Methods zeroRng [1, 2]).1.2.min_fitness
        ≤ (gaEvolve c2Ops c2Methods zeroRng [1, 2]).1.2.avg_fitness
    ∧ (gaEvolve c2Ops c2Methods zeroRng [1, 2]).1.2.avg_fitness
        ≤ (gaEvolve c2Ops c2Methods zeroRng [1, 2]).1.2.max_fitness := by
  have h := evolve_size_and_valid_stats c2Ops c2Methods zeroRng [1, 2] (by simp)
  simpa using h

/-- C3 counterexample: with the valid constant-zero stream, `chance = 0` and
one gene, `GaussianMutation::mutate` consumes exactly two draws (sign and
perturb decision), not the three the claim requires when the perturb decision
is "no mutation": the third (magnitude) draw is only consumed inside the
taken branch. -/
theorem gaussianMutate_three_draws_counterexample :
    Rng.valid zeroRng
    ∧ (gaussianMutate 0 1 zeroRng [5]).2.idx = zeroRng.idx + 2
    ∧ zeroRng.idx + 2 ≠ zeroRng.idx + 3 := by
  refine ⟨zeroRng_valid, ?_, by simp⟩
  simp [gaussianMutate, Rng.next, zeroRng]

/-- C3 (amended): for every chromosome, `GaussianMutation::mutate` consumes,
per gene, the sign draw and then the perturb-decision draw in that fixed
order, and the magnitude draw only when the perturb decision is "mutate":
the total number of draws consumed is 2·len plus the number of perturbed
genes, hence between 2·len and 3·len. -/
theorem gaussianMutate_draw_consumption (chance magnitude : ℚ)
    (rng : Rng) (child : List ℚ) :
    (gaussianMutate chance magnitude rng child).2.idx
      = rng.idx + 2 * child.length + perturbCount chance rng child
    ∧ perturbCount chance rng child ≤ child.length := by
  induction child generalizing rng with
  | nil => simp [gaussianMutate, perturbCount]
  | cons g gs ih =>
    simp only [gaussianMutate, perturbCount, Rng.next, List.length_cons]
    split_ifs
    all_goals
      first
      | (have h := ih ⟨rng.seq, rng.idx + 1 + 1 + 1⟩
         dsimp only at h ⊢
         exact ⟨by rw [h.1]; omega, by have := h.2; omega⟩)
      | (have h := ih ⟨rng.seq, rng.idx + 1 + 1⟩
         dsimp only at h ⊢
         exact ⟨by rw [h.1]; omega, by have := h.2; omega⟩)

/-- C7 counterexample: the constant-zero stream is a valid random source, the
mutation runs with chance = 1 and magnitude = 1 > 0, yet the single gene is
left unchanged, because the drawn magnitude factor U is 0 and the update adds
`magnitude * sign * 0`.  This refutes "chance=1 and magnitude>0 changes every
gene" as a statement over every RNG state. -/
theorem gaussianMutate_change_counterexample :
    Rng.valid zeroRng ∧ (0 : ℚ) < 1
    ∧ (gaussianMutate 1 1 zeroRng [2]).1 = [2] := by
  refine ⟨zeroRng_valid, by norm_num, ?_⟩
  simp [gaussianMutate, Rng.next, zeroRng]

/-- C7 (amended): for every chromosome and valid RNG state, mutating with
chance = 0 leaves the chromosome identical regardless of magnitude; chance = 1
with magnitude = 0 also leaves it identical; and chance = 1 with magnitude > 0
changes every gene provided every draw of the stream is nonzero (a zero
magnitude draw leaves that gene unchanged). -/
theorem gaussianMutate_boundaries (rng : Rng) (child : List ℚ) (magnitude : ℚ)
    (hv : rng.valid) :
    (gaussianMutate 0 magnitude rng child).1 = child
    ∧ (gaussianMutate 1 0 rng child).1 = child
    ∧ (0 < magnitude → (∀ i, 0 < rng.seq i) →
        ∀ j, j < child.length →
          (gaussianMutate 1 magnitude rng child).1.getD j 0 ≠ child.getD j 0) := by
  refine ⟨gaussianMutate_zero_chance magnitude child rng hv,
          gaussianMutate_zero_magnitude 1 child rng, ?_⟩
  intro hm hpos j hj
  exact gaussianMutate_full_chance_changes magnitude hm child rng hv hpos j hj

/-- Witness for C7 at the constant-1/2 stream and the chromosome `[2, 3]`. -/
theorem gaussianMutate_boundaries_witness :
    (gaussianMutate 0 1 halfRng [2, 3]).1 = [2, 3]
    ∧ (gaussianMutate 1 0 halfRng [2, 3]).1 = [2, 3]
    ∧ (gaussianMutate 1 1 halfRng [2, 3]).1.getD 0 0 ≠ (2 : ℚ) := by
  have h := gaussianMutate_boundaries halfRng [2, 3] 1 halfRng_valid
  refine ⟨h.1, h.2.1, ?_⟩
  have h3 := h.2.2 (by norm_num) (fun i => by norm_num [halfRng]) 0 (by norm_num)
  simpa using h3

/- ------------------------------------------------------------------ -/
/- Neural network: src/libs/neural-network/src/lib.rs                  -/
/- ------------------------------------------------------------------ -/

/-- A neuron: a bias plus one weight per input from the previous layer. -/
structure Neuron where
  weights : List ℚ
  bias : ℚ
deriving DecidableEq

/-- A layer: an ordered sequence of neurons. -/
structure Layer where
  neurons : List Neuron
deriving DecidableEq

/-- A network: an ordered sequence of layers. -/
structure Network where
  layers : List Layer
deriving DecidableEq

/-- The flattening order of one neuron inside `Network::weights`:
`once(&neuron.bias).chain(&neuron.weights)` — bias first, then the weights. -/
def Neuron.toWeights (n : Neuron) : List ℚ :=
  n.bias :: n.weights

/-- `Network::weights` (src/libs/neural-network/src/lib.rs:35-41): flatten the
network layer by layer, neuron by neuron, bias before weights. -/
def Network.weights (net : Network) : List ℚ :=
  (net.layers.map (fun l => (l.neurons.map Neuron.toWeights).flatten)).flatten

/-- Consume exactly `n` values from the front of the flat weight iterator,
returning them and the remainder; `none` models the
`weights.next().expect("got not enough weights!")` panic. -/
def takeExact : Nat → List ℚ → Option (List ℚ × List ℚ)
  | 0, ws => some ([], ws)
  | _ + 1, [] => none
  | n + 1, w :: ws => (takeExact n ws).map (fun r => (w :: r.1, r.2))

/-- `Neuron::from_weights`: first draw the bias from the iterator, then
`input_size` weights; `none` models the "got not enough bias/weights!"
panics. -/
def Neuron.fromWeights (inputSize : Nat) (ws : List ℚ) :
    Option (Neuron × List ℚ) :=
  match ws with
  | [] => none
  | b :: rest => (takeExact inputSize rest).map (fun r => (⟨r.1, b⟩, r.2))

/-- The `(0..output_size).map(..)` loop of `Layer::from_weights`: build
`outputSize` neurons in order, each consuming from the shared iterator. -/
def Layer.fromWeightsAux (inputSize : Nat) :
    Nat → List ℚ → Option (List Neuron × List ℚ)
  | 0, ws => some ([], ws)
  | k + 1, ws => do
    let r1 ← Neuron.fromWeights inputSize ws
    let r2 ← Layer.fromWeightsAux inputSize k r1.2
    pure (r1.1 :: r2.1, r2.2)

/-- `Layer::from_weights`. -/
def Layer.fromWeights (inputSize outputSize : Nat) (ws : List ℚ) :
    Option (Layer × List ℚ) :=
  (Layer.fromWeightsAux inputSize outputSize ws).map (fun r => (⟨r.1⟩, r.2))

/-- `topology.windows(2)` over the layer sizes, as the list of adjacent
`(input, output)` pairs. -/
def windows2 (topology : List Nat) : List (Nat × Nat) :=
  topology.zip topology.tail

/-- The `topology.windows(2).map(..)` loop of `Network::from_weights`:
build one layer per adjacent topology pair, in order, from the shared
iterator. -/
def Network.fromWeightsAux :
    List (Nat × Nat) → List ℚ → Option (List Layer × List ℚ)
  | [], ws => some ([], ws)
  | p :: ps, ws => do
    let r1 ← Layer.fromWeights p.1 p.2 ws
    let r2 ← Network.fromWeightsAux ps r1.2
    pure (r1.1 :: r2.1, r2.2)

/-- `Network::from_weights` (src/libs/neural-network/src/lib.rs:43-62):
build all layers from the flat weights; `none` if the iterator runs short
(the expect panics) or if weights remain unconsumed afterwards (the
"got too much weights!" panic). -/
def Network.fromWeights (topology : List Nat) (ws : List ℚ) : Option Network := do
  let r ← Network.fromWeightsAux (windows2 topology) ws
  if r.2.isEmpty then pure ⟨r.1⟩ else none

/-- `Neuron::propagate`: weighted sum of the inputs plus the bias, rectified
at zero.  The Rust code first asserts `inputs.len() == weights.len()`; the
claims below only ever use it with matching lengths, where `zip` agrees with
the asserted indexing. -/
def Neuron.propagate (n : Neuron) (inputs : List ℚ) : ℚ :=
  max (((inputs.zip n.weights).map (fun p => p.1 * p.2)).sum + n.bias) 0

/-- `Layer::propagate`: one activation per neuron. -/
def Layer.propagate (l : Layer) (inputs : List ℚ) : List ℚ :=
  l.neurons.map (fun n => n.propagate inputs)

/-- `Network::propagate`: fold the input vector through the layers. -/
def Network.propagate (net : Network) (inputs : List ℚ) : List ℚ :=
  net.layers.foldl (fun acc l => l.propagate acc) inputs

/-- Well-formedness of a neuron for a given input size: its weight count
equals the previous layer's neuron count. -/
def Neuron.wf (inputSize : Nat) (n : Neuron) : Bool :=
  n.weights.length == inputSize

/-- Well-formedness of a layer for an adjacent topology pair. -/
def Layer.wf (inputSize outputSize : Nat) (l : Layer) : Bool :=
  (l.neurons.length == outputSize) && l.neurons.all (Neuron.wf inputSize)

/-- Well-formedness of a layer list against the adjacent topology pairs. -/
def layersWf : List (Nat × Nat) → List Layer → Bool
  | [], [] => true
  | p :: ps, l :: ls => Layer.wf p.1 p.2 l && layersWf ps ls
  | _, _ => false

/-- A network built over a topology: its layers match `topology.windows(2)`. -/
def Network.wf (topology : List Nat) (net : Network) : Bool :=
  layersWf (windows2 topology) net.layers

/- ------------------------------------------------------------------ -/
/- Round-trip lemmas for the network flattening                        -/
/- ------------------------------------------------------------------ -/

lemma takeExact_append :
    ∀ (xs r : List ℚ), takeExact xs.length (xs ++ r) = some (xs, r) := by
  intro xs
  induction xs with
  | nil => intro r; rfl
  | cons x tail ih =>
    intro r
    simp only [List.length_cons, List.cons_append, takeExact]
    rw [List.append_eq, ih r]
    rfl

lemma Neuron.fromWeights_toWeights (n : Neuron) (i : Nat) (r : List ℚ)
    (h : n.wf i = true) :
    Neuron.fromWeights i (n.toWeights ++ r) = some (n, r) := by
  have hlen : n.weights.length = i := by
    simpa [Neuron.wf] using h
  simp only [Neuron.toWeights, List.cons_append, Neuron.fromWeights]
  rw [← hlen, takeExact_append]
  rfl

lemma layerFromWeightsAux_flatten (i : Nat) :
    ∀ (ns : List Neuron) (r : List ℚ), (∀ n ∈ ns, n.wf i = true) →
      Layer.fromWeightsAux i ns.length
          ((ns.map Neuron.toWeights).flatten ++ r) = some (ns, r) := by
  intro ns
  induction ns with
  | nil => intro r _; rfl
  | cons n tail ih =>
    intro r h
    simp only [List.map_cons, List.flatten_cons, List.length_cons,
      List.append_assoc, Layer.fromWeightsAux]
    rw [Neuron.fromWeights_toWeights n i _ (h n (List.mem_cons_self _ _))]
    simp only [Option.bind_eq_bind, Option.some_bind]
    rw [ih r (fun x hx => h x (List.mem_cons_of_mem _ hx))]
    rfl

lemma Layer.fromWeights_flatten (l : Layer) (i o : Nat) (r : List ℚ)
    (h : l.wf i o = true) :
    Layer.fromWeights i o ((l.neurons.map Neuron.toWeights).flatten ++ r)
      = some (l, r) := by
  have hlen : l.neurons.length = o := by
    have := (Bool.and_eq_true _ _).mp h
    simpa using this.1
  have hall : ∀ n ∈ l.neurons, n.wf i = true := by
    have := (Bool.and_eq_true _ _).mp h
    simpa [List.all_eq_true] using this.2
  simp only [Layer.fromWeights, ← hlen,
    layerFromWeightsAux_flatten i l.neurons r hall, Option.map_some]
  rfl

lemma networkFromWeightsAux_flatten :
    ∀ (ps : List (Nat × Nat)) (ls : List Layer) (r : List ℚ),
      layersWf ps ls = true →
      Network.fromWeightsAux ps
          ((ls.map (fun l => (l.neurons.map Neuron.toWeights).flatten)).flatten ++ r)
        = some (ls, r) := by
  intro ps
  induction ps with
  | nil =>
    intro ls r h
    cases ls with
    | nil => rfl
    | cons l ls2 => exact absurd h (by simp [layersWf])
  | cons p ps2 ih =>
    intro ls r h
    cases ls with
    | nil => exact absurd h (by simp [layersWf])
    | cons l ls2 =>
      have hp := (Bool.and_eq_true _ _).mp h
      simp only [List.map_cons, List.flatten_cons, List.append_assoc,
        Network.fromWeightsAux]
      rw [Layer.fromWeights_flatten l p.1 p.2 _ hp.1]
      simp only [Option.bind_eq_bind, Option.some_bind]
      rw [ih ls2 r hp.2]
      rfl

/- ------------------------------------------------------------------ -/
/- Claim theorem for the network round-trip                            -/
/- ------------------------------------------------------------------ -/

/-- C1: for every topology with at least two layers and every network built
over it (well-formed for that topology), `Network::from_weights(topology,
net.weights())` succeeds and produces a network equal to the original, hence
with the same `propagate` output on every input vector. -/
theorem network_roundtrip (topology : List Nat) (net : Network)
    (_htop : 2 ≤ topology.length) (hwf : net.wf topology = true) :
    ∃ net2, Network.fromWeights topology net.weights = some net2
      ∧ net2 = net
      ∧ ∀ inputs : List ℚ, net2.propagate inputs = net.propagate inputs := by
  refine ⟨net, ?_, rfl, fun _ => rfl⟩
  have haux := networkFromWeightsAux_flatten (windows2 topology) net.layers [] hwf
  rw [List.append_nil] at haux
  simp only [Network.fromWeights, Network.weights, haux, Option.bind_eq_bind,
    Option.some_bind, List.isEmpty_nil, if_true]
  rfl

/-- The concrete network used to witness C1: topology `[2, 1]`, one layer
with one neuron of two weights. -/
def c1Net : Network :=
  ⟨[⟨[⟨[1/2, 1/3], 1/4⟩]⟩]⟩

/-- Witness for C1 at topology `[2, 1]` and the network `c1Net`. -/
theorem network_roundtrip_witness :
    Network.fromWeights [2, 1] c1Net.weights = some c1Net
    ∧ c1Net.wf [2, 1] = true := by
  obtain ⟨net2, h1, h2, _⟩ := network_roundtrip [2, 1] c1Net (by decide) (by decide)
  rw [h2] at h1
  exact ⟨h1, by decide⟩

/- ------------------------------------------------------------------ -/
/- Simulation data model: src/libs/simulation/src/                     -/
/- ------------------------------------------------------------------ -/

/-- 2-D points and vectors (`na::Point2<f32>`, `na::Vector2<f32>`). -/
abbrev Vec2 := ℚ × ℚ

/-- The mathematics the simulation takes from the external nalgebra library
(norms, distances, rotation application, the angle of `rotation_between`,
and the f32 constant π), together with `Brain::from_chromosome`, whose
defining file `brain.rs` is not present under src/.  Modelled from the spec
for that last field: the Brain only wraps a Network and `from_chromosome`
rebuilds it deterministically from the flat genome, so it is kept as an
abstract deterministic function.  Every claim below either quantifies over
this record or instantiates it explicitly. -/
structure Externals where
  norm : Vec2 → ℚ
  normalize : Vec2 → Vec2
  distance : Vec2 → Vec2 → ℚ
  angleTo : Vec2 → ℚ
  rotApply : ℚ → Vec2 → Vec2
  pi : ℚ
  brainFromChromosome : List ℚ → Network

/-- nalgebra's `wrap(val, min, max)`: repeatedly add the interval width while
below `min`, or repeatedly subtract it while above `max`.  Closed form of
those loops: the ceiling counts the number of iterations, and the result
lands in `[min, max]` — both endpoints included, since the loops stop as
soon as the value is no longer strictly outside. -/
def naWrap (val lo hi : ℚ) : ℚ :=
  let width := hi - lo
  if val < lo then val + width * (⌈(lo - val) / width⌉ : ℤ)
  else if hi < val then val - width * (⌈(val - hi) / width⌉ : ℤ)
  else val

/-- Rust `f32::clamp(min, max)`: `min` if below, `max` if above, else the
value itself (the Rust method asserts `min <= max`). -/
def f32clamp (v lo hi : ℚ) : ℚ :=
  if v < lo then lo else if hi < v then hi else v

/-- `Eye` (src/libs/simulation/src/eye.rs): immutable sensory configuration. -/
structure Eye where
  fov_range : ℚ
  fov_angle : ℚ
  cells : Nat
deriving DecidableEq

/-- `Animal` (src/libs/simulation/src/animal.rs).  The Brain wraps a Network
(spec §3; `brain.rs` is not under src/), and the `na::Rotation2` is carried
by its angle. -/
structure Animal where
  eye : Eye
  brain : Network
  position : Vec2
  rotation : ℚ
  speed : ℚ
  hunger : Nat
deriving DecidableEq

/-- `Food` (src/libs/simulation/src/food.rs). -/
structure Food where
  position : Vec2
deriving DecidableEq

/-- `WorldConfig` (src/libs/simulation/src/config.rs). -/
structure WorldConfig where
  num_animals : Nat
  num_foods : Nat
deriving DecidableEq

/-- `World` (src/libs/simulation/src/world.rs). -/
structure World where
  animals : List Animal
  foods : List Food
  config : WorldConfig
deriving DecidableEq

/-- The `self.animals().iter().filter(|a| boid != *a)` collection used by all
three flocking rules.  `PartialEq for Animal` compares positions only
(src/libs/simulation/src/animal.rs), so "other" means "at a different
position". -/
def otherAnimals (w : World) (boid : Animal) : List Animal :=
  w.animals.filter (fun a => decide (a.position ≠ boid.position))

/-- `World::calc_coherence` (src/libs/simulation/src/world.rs:49-62).  Note
two properties of the source preserved here: the sum folds over ALL animals
(`self.animals()`), not over the filtered `animals` vector, and the divisor
is `animals.len() - 1`, i.e. (number of other animals) - 1.  In f32 the
division by zero arising when there is exactly one other animal produces
±inf/NaN; in this exact model `x / 0 = 0`, so the divide-by-zero divisor is
stated separately at claim C4. -/
def calcCoherence (w : World) (boid : Animal) : Vec2 :=
  let animals := otherAnimals w boid
  let perceivedCenter :=
    if animals.isEmpty then boid.position
    else
      let sum := w.animals.foldl
        (fun (acc : Vec2) a => (acc.1 + a.position.1, acc.2 + a.position.2)) (0, 0)
      (sum.1 / ((animals.length - 1 : Nat) : ℚ),
       sum.2 / ((animals.length - 1 : Nat) : ℚ))
  ((perceivedCenter.1 - boid.position.1) / 100,
   (perceivedCenter.2 - boid.position.2) / 100)

/-- `World::calc_separation` (src/libs/simulation/src/world.rs:66-88): if no
other animals exist the function returns `boid.position()` itself; otherwise
it folds over ALL animals, subtracting the displacement towards each animal
strictly closer than 0.01 (the boid itself contributes the zero vector). -/
def calcSeparation (E : Externals) (w : World) (boid : Animal) : Vec2 :=
  let boidPos := boid.position
  let separationUnits : ℚ := 1/100
  let animals := otherAnimals w boid
  if animals.isEmpty then boid.position
  else
    w.animals.foldl
      (fun (acc : Vec2) other =>
        let dist := E.distance boidPos other.position
        let separation :=
          if dist < separationUnits then
            (other.position.1 - boidPos.1, other.position.2 - boidPos.2)
          else ((0 : ℚ), (0 : ℚ))
        (acc.1 - separation.1, acc.2 - separation.2))
      (0, 0)

/-- `World::calc_alignment` (src/libs/simulation/src/world.rs:92-107): same
shape as coherence, over the animals' velocity vectors
`rotation * Vector2::new(0, speed)`. -/
def calcAlignment (E : Externals) (w : World) (boid : Animal) : Vec2 :=
  let animals := otherAnimals w boid
  if animals.isEmpty then boid.position
  else
    let sum := w.animals.foldl
      (fun (acc : Vec2) a =>
        let v := E.rotApply a.rotation (0, a.speed)
        (acc.1 + v.1, acc.2 + v.2)) (0, 0)
    (sum.1 / ((animals.length - 1 : Nat) : ℚ),
     sum.2 / ((animals.length - 1 : Nat) : ℚ))

/-- The coherence force as claim C4 (and spec §4.4) words it: the vector from
the agent toward the centroid of all OTHER agents' positions, scaled by
1/100, with the centroid defaulting to the agent's own position when no other
agents exist.  This definition follows the claim's words, to be compared
against `calcCoherence`, which follows the source. -/
def coherenceSpec (w : World) (boid : Animal) : Vec2 :=
  let others := otherAnimals w boid
  let center :=
    if others.isEmpty then boid.position
    else
      let sum := others.foldl
        (fun (acc : Vec2) a => (acc.1 + a.position.1, acc.2 + a.position.2)) (0, 0)
      (sum.1 / (others.length : ℚ), sum.2 / (others.length : ℚ))
  ((center.1 - boid.position.1) / 100, (center.2 - boid.position.2) / 100)

/-- The body of the `for food in foods` loop of `Eye::calc_vision`
(src/libs/simulation/src/eye.rs:33-76), acting on the accumulated cell
vector.  `cell_idx as usize` truncates a non-negative f32 towards zero and
saturates a negative one at 0, which is exactly `Int.floor` followed by
`Int.toNat`. -/
def visionStep (E : Externals) (eye : Eye) (position : Vec2)
    (rotationAngle : ℚ) (cells : List ℚ) (food : Food) : List ℚ :=
  let vec := (food.position.1 - position.1, food.position.2 - position.2)
  let dist := E.norm vec
  if eye.fov_range ≤ dist then cells
  else
    let angle0 := E.angleTo vec
    let angle1 := angle0 - rotationAngle
    let angle2 := naWrap angle1 (-E.pi) E.pi
    if angle2 < -eye.fov_angle / 2 ∨ eye.fov_angle / 2 < angle2 then cells
    else
      let angle3 := angle2 + eye.fov_angle / 2
      let cellAngle := angle3 / eye.fov_angle
      let cellIdxRaw := cellAngle * (eye.cells : ℚ)
      let cellIdx := min (⌊cellIdxRaw⌋ : ℤ).toNat (cells.length - 1)
      let energy := (eye.fov_range - dist) / eye.fov_range
      cells.set cellIdx (cells.getD cellIdx 0 + energy)

/-- `Eye::calc_vision`: start from `vec![0.0; self.cells]` and run the loop
over the foods. -/
def calcVision (E : Externals) (eye : Eye) (position : Vec2)
    (rotationAngle : ℚ) (foods : List Food) : List ℚ :=
  foods.foldl (visionStep E eye position rotationAngle)
    (List.replicate eye.cells 0)

/-- Whether one food passes both `continue` guards of `calc_vision`: strictly
within `fov_range`, and with wrapped relative angle inside
`[-fov_angle/2, fov_angle/2]`. -/
def foodSeen (E : Externals) (eye : Eye) (position : Vec2)
    (rotationAngle : ℚ) (food : Food) : Bool :=
  let vec := (food.position.1 - position.1, food.position.2 - position.2)
  let dist := E.norm vec
  if eye.fov_range ≤ dist then false
  else
    let angle2 := naWrap (E.angleTo vec - rotationAngle) (-E.pi) E.pi
    !(angle2 < -eye.fov_angle / 2 ∨ eye.fov_angle / 2 < angle2)

/-- The single cell index a kept food contributes to, clamped to
`cells - 1`. -/
def foodCellIdx (E : Externals) (eye : Eye) (position : Vec2)
    (rotationAngle : ℚ) (food : Food) : Nat :=
  let vec := (food.position.1 - position.1, food.position.2 - position.2)
  let angle2 := naWrap (E.angleTo vec - rotationAngle) (-E.pi) E.pi
  let cellAngle := (angle2 + eye.fov_angle / 2) / eye.fov_angle
  min (⌊cellAngle * (eye.cells : ℚ)⌋ : ℤ).toNat (eye.cells - 1)

/-- The energy a kept food contributes:
`(fov_range - distance) / fov_range`. -/
def foodEnergy (E : Externals) (eye : Eye) (position : Vec2) (food : Food) : ℚ :=
  let vec := (food.position.1 - position.1, food.position.2 - position.2)
  (eye.fov_range - E.norm vec) / eye.fov_range

/- ------------------------------------------------------------------ -/
/- Helper lemmas for the vision fold                                   -/
/- ------------------------------------------------------------------ -/

lemma getD_set_self : ∀ (l : List ℚ) (i : Nat), i < l.length →
    ∀ v : ℚ, (l.set i v).getD i 0 = v := by
  intro l
  induction l with
  | nil => intro i h; simp at h
  | cons x xs ih =>
    intro i h v
    cases i with
    | zero => rfl
    | succ k =>
      simp only [List.set_cons_succ, List.getD_cons_succ]
      exact ih k (Nat.lt_of_succ_lt_succ h) v

lemma getD_set_ne : ∀ (l : List ℚ) (i j : Nat), i ≠ j →
    ∀ v : ℚ, (l.set i v).getD j 0 = l.getD j 0 := by
  intro l
  induction l with
  | nil => intro i j h v; simp
  | cons x xs ih =>
    intro i j h v
    cases i with
    | zero =>
      cases j with
      | zero => exact absurd rfl h
      | succ k => rfl
    | succ m =>
      cases j with
      | zero => rfl
      | succ k =>
        simp only [List.set_cons_succ, List.getD_cons_succ]
        exact ih m k (fun e => h (by rw [e])) v

lemma replicate_getD_zero : ∀ (n i : Nat), (List.replicate n (0 : ℚ)).getD i 0 = 0 := by
  intro n
  induction n with
  | zero => intro i; simp
  | succ k ih =>
    intro i
    cases i with
    | zero => rfl
    | succ j => exact ih j

lemma visionStep_not_seen (E : Externals) (eye : Eye) (pos : Vec2) (rot : ℚ)
    (cells : List ℚ) (f : Food) (h : foodSeen E eye pos rot f = false) :
    visionStep E eye pos rot cells f = cells := by
  unfold visionStep
  unfold foodSeen at h
  dsimp only at h ⊢
  split_ifs at h ⊢ with h1 h2
  · rfl
  · rfl
  · simp at h
    push_neg at h2
    exact absurd (h h2.1) (not_lt.mpr h2.2)

lemma visionStep_seen (E : Externals) (eye : Eye) (pos : Vec2) (rot : ℚ)
    (cells : List ℚ) (f : Food) (h : foodSeen E eye pos rot f = true)
    (hlen : cells.length = eye.cells) :
    visionStep E eye pos rot cells f
      = cells.set (foodCellIdx E eye pos rot f)
          (cells.getD (foodCellIdx E eye pos rot f) 0 + foodEnergy E eye pos f) := by
  unfold visionStep
  unfold foodSeen at h
  dsimp only at h ⊢
  split_ifs at h ⊢ with h1 h2
  · exact absurd h2 (by simpa using h)
  · unfold foodCellIdx foodEnergy
    dsimp only
    rw [hlen]

lemma visionFold_spec (E : Externals) (eye : Eye) (pos : Vec2) (rot : ℚ) :
    ∀ (foods : List Food) (cells0 : List ℚ), cells0.length = eye.cells →
      (foods.foldl (visionStep E eye pos rot) cells0).length = eye.cells
      ∧ ∀ i, i < eye.cells →
          (foods.foldl (visionStep E eye pos rot) cells0).getD i 0
            = cells0.getD i 0
              + ((foods.filter (fun f => foodSeen E eye pos rot f
                    && (foodCellIdx E eye pos rot f == i))).map
                  (foodEnergy E eye pos)).sum := by
  intro foods
  induction foods with
  | nil =>
    intro cells0 h
    refine ⟨h, ?_⟩
    intro i _
    simp
  | cons f fs ih =>
    intro cells0 h
    rw [List.foldl_cons]
    by_cases hseen : foodSeen E eye pos rot f = true
    · rw [visionStep_seen E eye pos rot cells0 f hseen h]
      set idx := foodCellIdx E eye pos rot f with hidx
      set cells1 := cells0.set idx (cells0.getD idx 0 + foodEnergy E eye pos f)
        with hc1
      have hlen1 : cells1.length = eye.cells := by
        rw [hc1, List.length_set]; exact h
      have hrec := ih cells1 hlen1
      refine ⟨hrec.1, ?_⟩
      intro i hi
      rw [(hrec.2 i hi)]
      by_cases hii : idx = i
      · have hfil : (List.filter (fun g => foodSeen E eye pos rot g
            && (foodCellIdx E eye pos rot g == i)) (f :: fs))
            = f :: List.filter (fun g => foodSeen E eye pos rot g
                && (foodCellIdx E eye pos rot g == i)) fs := by
          rw [List.filter_cons]
          simp [hseen, ← hidx, hii]
        rw [hfil, List.map_cons, List.sum_cons]
        have hlt : idx < cells0.length := by
          rw [h, hii]; exact hi
        have hgd : cells1.getD i 0 = cells0.getD i 0 + foodEnergy E eye pos f := by
          rw [hc1, ← hii]
          exact getD_set_self cells0 idx hlt _
        rw [hgd]
        ring
      · have hfil : (List.filter (fun g => foodSeen E eye pos rot g
            && (foodCellIdx E eye pos rot g == i)) (f :: fs))
            = List.filter (fun g => foodSeen E eye pos rot g
                && (foodCellIdx E eye pos rot g == i)) fs := by
          rw [List.filter_cons]
          simp [hseen, ← hidx, hii]
        rw [hfil]
        have hgd : cells1.getD i 0 = cells0.getD i 0 :=
          getD_set_ne cells0 idx i hii _
        rw [hgd]
    · have hseen2 : foodSeen E eye pos rot f = false := by
        simpa using hseen
      rw [visionStep_not_seen E eye pos rot cells0 f hseen2]
      have hrec := ih cells0 h
      refine ⟨hrec.1, ?_⟩
      intro i hi
      rw [(hrec.2 i hi)]
      have hfil : (List.filter (fun g => foodSeen E eye pos rot g
          && (foodCellIdx E eye pos rot g == i)) (f :: fs))
          = List.filter (fun g => foodSeen E eye pos rot g
              && (foodCellIdx E eye pos rot g == i)) fs := by
        rw [List.filter_cons]
        simp [hseen2]
      rw [hfil]

/- ------------------------------------------------------------------ -/
/- Claim theorems for the eye and the flocking rules                   -/
/- ------------------------------------------------------------------ -/

/-- C6: for every position, rotation and food list, `calc_vision` returns a
vector of length exactly `cells`; a food whose distance equals or exceeds
`fov_range` is never seen (the boundary is exclusive); every kept food
contributes to exactly one cell, whose index is clamped to `cells - 1`; and
each cell holds exactly the sum of the energies
`(fov_range - distance) / fov_range` of the kept foods mapped to it. -/
theorem eye_vision_contract (E : Externals) (eye : Eye) (pos : Vec2) (rot : ℚ)
    (foods : List Food) (_hc : 0 < eye.cells) :
    (calcVision E eye pos rot foods).length = eye.cells
    ∧ (∀ f : Food, eye.fov_range ≤ E.norm (f.position.1 - pos.1, f.position.2 - pos.2) →
        foodSeen E eye pos rot f = false)
    ∧ (∀ f : Food, foodCellIdx E eye pos rot f ≤ eye.cells - 1)
    ∧ ∀ i, i < eye.cells →
        (calcVision E eye pos rot foods).getD i 0
          = ((foods.filter (fun f => foodSeen E eye pos rot f
                && (foodCellIdx E eye pos rot f == i))).map
              (foodEnergy E eye pos)).sum := by
  have hbase : (List.replicate eye.cells (0 : ℚ)).length = eye.cells :=
    List.length_replicate _ _
  have hmain := visionFold_spec E eye pos rot foods (List.replicate eye.cells 0) hbase
  unfold calcVision
  refine ⟨hmain.1, ?_, ?_, ?_⟩
  · intro f hf
    unfold foodSeen
    dsimp only
    rw [if_pos hf]
  · intro f
    exact min_le_right _ _
  · intro i hi
    have h2 := hmain.2 i hi
    rw [replicate_getD_zero, zero_add] at h2
    exact h2

/-- Concrete externals for the C6 witness: the norm is the honest Euclidean
norm at the one vector reached by the evaluation (`(0, 1/2)` has norm 1/2). -/
def c6Ext : Externals :=
  { norm := fun v => if v = ((0 : ℚ), (1/2 : ℚ)) then 1/2 else 0
    normalize := fun v => v
    distance := fun _ _ => 0
    angleTo := fun _ => 0
    rotApply := fun _ v => v
    pi := 4
    brainFromChromosome := fun _ => ⟨[]⟩ }

def c6Eye : Eye := ⟨1, 2, 2⟩

def c6Foods : List Food := [⟨(0, 1/2)⟩]

/-- Witness for C6: a 2-cell eye looking at a single food half a unit ahead. -/
theorem eye_vision_contract_witness :
    (calcVision c6Ext c6Eye (0, 0) 0 c6Foods).length = 2
    ∧ (calcVision c6Ext c6Eye (0, 0) 0 c6Foods).getD 1 0
        = ((c6Foods.filter (fun f => foodSeen c6Ext c6Eye (0, 0) 0 f
              && (foodCellIdx c6Ext c6Eye (0, 0) 0 f == 1))).map
            (foodEnergy c6Ext c6Eye (0, 0))).sum := by
  have h := eye_vision_contract c6Ext c6Eye (0, 0) 0 c6Foods (by decide)
  exact ⟨h.1, h.2.2.2 1 (by decide)⟩

/-- A minimal animal at a given position, for the concrete world
evaluations. -/
def plainAnimal (p : Vec2) : Animal :=
  { eye := ⟨1, 1, 1⟩, brain := ⟨[]⟩, position := p, rotation := 0, speed := 1,
    hunger := 0 }

def c4World : World :=
  ⟨[plainAnimal (0, 0), plainAnimal (1, 0), plainAnimal (0, 1)], [], ⟨3, 0⟩⟩

def c4TwoWorld : World :=
  ⟨[plainAnimal (0, 0), plainAnimal (1/2, 1/2)], [], ⟨2, 0⟩⟩

/-- C4 (code bug): in the three-animal world with positions (0,0), (1,0),
(0,1), the code's coherence force on the first animal is (1/100, 1/100) —
the sum folds over ALL animals, the first one included, and divides by
`animals.len() - 1` = (number of others) - 1 = 1 — while the claimed
vector towards the centroid of the other animals, scaled by 1/100, is
(1/200, 1/200).  Moreover with exactly two animals the code's divisor is 0,
so the f32 division produces ±inf/NaN, contradicting the never-NaN part of
the claim (in this exact model the zero divisor is stated directly). -/
theorem coherence_centroid_code_bug :
    calcCoherence c4World (plainAnimal (0, 0)) = (1/100, 1/100)
    ∧ coherenceSpec c4World (plainAnimal (0, 0)) = (1/200, 1/200)
    ∧ ((1/100 : ℚ), (1/100 : ℚ)) ≠ ((1/200 : ℚ), (1/200 : ℚ))
    ∧ (otherAnimals c4TwoWorld (plainAnimal (0, 0))).length - 1 = 0 := by
  refine ⟨?_, ?_, ?_, ?_⟩
  · norm_num [calcCoherence, otherAnimals, c4World, plainAnimal, List.filter]
  · norm_num [coherenceSpec, otherAnimals, c4World, plainAnimal, List.filter]
  · simp only [ne_eq, Prod.mk.injEq, not_and]
    norm_num
  · norm_num [otherAnimals, c4TwoWorld, plainAnimal, List.filter]

/-- Externals whose fields are never reached by the single-agent world
evaluations. -/
def dummyExt : Externals :=
  { norm := fun _ => 0, normalize := fun v => v, distance := fun _ _ => 0,
    angleTo := fun _ => 0, rotApply := fun _ v => v, pi := 4,
    brainFromChromosome := fun _ => ⟨[]⟩ }

def c5World : World := ⟨[plainAnimal (1/2, 1/4)], [], ⟨1, 1⟩⟩

/-- C5 (code bug): in a world with exactly one agent, `calc_coherence` does
return the zero vector, but `calc_separation` returns the agent's own
position (1/2, 1/4) instead of the zero force the claim states: the
zero-neighbour fallback of the separation rule returns `boid.position()`
directly. -/
theorem single_agent_separation_code_bug :
    calcCoherence c5World (plainAnimal (1/2, 1/4)) = (0, 0)
    ∧ calcSeparation dummyExt c5World (plainAnimal (1/2, 1/4)) = (1/2, 1/4)
    ∧ ((1/2 : ℚ), (1/4 : ℚ)) ≠ ((0 : ℚ), (0 : ℚ)) := by
  refine ⟨?_, ?_, ?_⟩
  · norm_num [calcCoherence, otherAnimals, c5World, plainAnimal, List.filter]
  · norm_num [calcSeparation, otherAnimals, c5World, plainAnimal, List.filter]
  · simp only [ne_eq, Prod.mk.injEq, not_and]
    norm_num

/- ------------------------------------------------------------------ -/
/- Simulation orchestrator: src/libs/simulation/src/lib.rs             -/
/- ------------------------------------------------------------------ -/

/-- `SimulationConfig` (src/libs/simulation/src/config.rs). -/
structure SimulationConfig where
  speed_max : ℚ
  speed_min : ℚ
  speed_accel : ℚ
  rotation_accel : ℚ
  mutation_chance : ℚ
  mutation_weight : ℚ
  max_generation : Nat
deriving DecidableEq

/-- `EyeConfig` (src/libs/simulation/src/config.rs). -/
structure EyeConfig where
  fov_range : ℚ
  fov_angle : ℚ
  cells : Nat
deriving DecidableEq

/-- `Config` (src/libs/simulation/src/config.rs): the resolved settings
passed by value into `step`/`evolve`.  The `animal` section is omitted:
`Animal::new` reads `AnimalConfig::default()` (the constant below), not the
settings. -/
structure Config where
  simulation : SimulationConfig
  eye : EyeConfig
  world : WorldConfig
deriving DecidableEq

/-- `AnimalConfig::default().speed = INITIAL_SPEED = 0.002`, the value
`Animal::new` actually uses for the starting speed. -/
def animalConfigDefaultSpeed : ℚ := 1/500

/-- `AnimalIndividual` (src/libs/simulation/src/animal_individual.rs). -/
structure AnimalIndividual where
  fitness : ℚ
  chromosome : List ℚ
deriving DecidableEq

/-- The `ga::Individual` implementation of `AnimalIndividual`: `create`
builds the individual with fitness 0 from the chromosome. -/
def animalIndividualOps : IndividualOps AnimalIndividual :=
  { create := fun c => ⟨0, c⟩
    fitness := fun i => i.fitness
    chromosome := fun i => i.chromosome }

/-- `AnimalIndividual::from_animal`: fitness is the hunger counter, the
chromosome is the flattened brain.  Modelled from the spec for the genome
part: `brain.rs` is not under src/, and the spec fixes the genome to the
loss-less flattening of the brain's network. -/
def animalToIndividual (a : Animal) : AnimalIndividual :=
  ⟨(a.hunger : ℚ), a.brain.weights⟩

/-- `Animal::from_chromosome` followed by `Animal::new`
(src/libs/simulation/src/animal.rs): a fresh eye from the settings, the
brain rebuilt from the chromosome (`E.brainFromChromosome`, see
`Externals`), a random position (two draws), a random rotation (one draw),
the default starting speed, and hunger 0. -/
def animalFromChromosome (E : Externals) (settings : Config) (rng : Rng)
    (chromosome : List ℚ) : Animal × Rng :=
  let eye : Eye := ⟨settings.eye.fov_range, settings.eye.fov_angle, settings.eye.cells⟩
  let brain := E.brainFromChromosome chromosome
  let px := rng.next
  let py := px.2.next
  let rot := py.2.next
  ({ eye := eye, brain := brain, position := (px.1, py.1), rotation := rot.1,
     speed := animalConfigDefaultSpeed, hunger := 0 }, rot.2)

/-- `Simulation` (src/libs/simulation/src/lib.rs).  The PSO bookkeeping
fields (`global_best_fitness`, `global_best_position`, `max_fitness`,
`fitness_std`, `max_position`) are omitted from the state: they are only
ever written (in `evolve`; the code that would read them in `calc_movement`
is commented out), so no live behaviour depends on them.  The genetic
algorithm is carried as its three strategies, as `GeneticAlgorithm` holds
them. -/
structure Simulation where
  world : World
  ga : GAMethods AnimalIndividual
  age : Nat
  config : SimulationConfig

/-- The per-animal delta of `Simulation::calc_movement`'s first loop, with
the fixed weights 0.1, 0.55, 0.1. -/
def movementDelta (E : Externals) (w : World) (a : Animal) : Vec2 :=
  let coherenceWeight : ℚ := 1/10
  let separationWeight : ℚ := 55/100
  let alignmentWeight : ℚ := 1/10
  let coherence := calcCoherence w a
  let separation := calcSeparation E w a
  let alignment := calcAlignment E w a
  (coherence.1 * coherenceWeight + separation.1 * separationWeight
     + alignment.1 * alignmentWeight,
   coherence.2 * coherenceWeight + separation.2 * separationWeight
     + alignment.2 * alignmentWeight)

/-- The body of `calc_movement`'s second loop: add the rotated forward
velocity, cap the velocity magnitude at the animal's speed, advance the
position and wrap both coordinates with `na::wrap(_, 0.0, 1.0)`. -/
def moveAnimal (E : Externals) (delta : Vec2) (a : Animal) : Animal :=
  let rotated := E.rotApply a.rotation (0, a.speed)
  let velocity0 := (delta.1 + rotated.1, delta.2 + rotated.2)
  let velocity :=
    if a.speed < E.norm velocity0 then
      let u := E.normalize velocity0
      (u.1 * a.speed, u.2 * a.speed)
    else velocity0
  let p := (a.position.1 + velocity.1, a.position.2 + velocity.2)
  { a with position := (naWrap p.1 0 1, naWrap p.2 0 1) }

/-- `Simulation::calc_movement` (src/libs/simulation/src/lib.rs:138-177):
all deltas are computed from the pre-update positions, then every animal is
moved. -/
def calcMovement (E : Externals) (sim : Simulation) : Simulation :=
  let updates := sim.world.animals.map (movementDelta E sim.world)
  { sim with world := { sim.world with
      animals := List.zipWith (fun a d => moveAnimal E d a)
        sim.world.animals updates } }

/-- The per-animal update of `Simulation::calc_brain`
(src/libs/simulation/src/lib.rs:117-136).  `output[0]`/`output[1]` panic in
Rust when the output layer has fewer than two neurons; they are modelled
with `getD`, whose value is irrelevant to the clamping bounds. -/
def calcBrainAnimal (E : Externals) (cfg : SimulationConfig) (foods : List Food)
    (a : Animal) : Animal :=
  let vision := calcVision E a.eye a.position a.rotation foods
  let output := a.brain.propagate vision
  let speed := f32clamp (output.getD 0 0) (-cfg.speed_accel) cfg.speed_accel
  let angle := f32clamp (output.getD 1 0) (-cfg.rotation_accel) cfg.rotation_accel
  { a with
    speed := f32clamp (a.speed + speed) cfg.speed_min cfg.speed_max
    rotation := a.rotation + angle }

/-- `Simulation::calc_brain`: apply the per-animal update across the
population. -/
def calcBrain (E : Externals) (sim : Simulation) : Simulation :=
  { sim with world := { sim.world with
      animals := sim.world.animals.map
        (calcBrainAnimal E sim.config sim.world.foods) } }

/-- The inner `for food in foods` loop of `Simulation::calc_collision` for
one animal: a food at distance ≤ 0.01 increments the hunger and is
respawned at a fresh random position (two draws). -/
def collideFoods (E : Externals) : Animal → List Food → Rng → List Food × Animal × Rng
  | a, [], rng => ([], a, rng)
  | a, food :: fs, rng =>
    if E.distance a.position food.position ≤ 1/100 then
      let fx := rng.next
      let fy := fx.2.next
      let rest := collideFoods E { a with hunger := a.hunger + 1 } fs fy.2
      (⟨(fx.1, fy.1)⟩ :: rest.1, rest.2)
    else
      let rest := collideFoods E a fs rng
      (food :: rest.1, rest.2)

/-- The outer loop of `calc_collision`: animals in order, each scanning the
(already partially respawned) food list. -/
def collideAnimals (E : Externals) :
    List Animal → List Food → Rng → List Animal × List Food × Rng
  | [], foods, rng => ([], foods, rng)
  | a :: rest, foods, rng =>
    let r1 := collideFoods E a foods rng
    let r2 := collideAnimals E rest r1.1 r1.2.2
    (r1.2.1 :: r2.1, r2.2)

/-- `Simulation::calc_collision` (src/libs/simulation/src/lib.rs:179-191). -/
def calcCollision (E : Externals) (rng : Rng) (sim : Simulation) :
    Simulation × Rng :=
  let r := collideAnimals E sim.world.animals sim.world.foods rng
  ({ sim with world := { sim.world with animals := r.1, foods := r.2.1 } },
   r.2.2)

/-- The `for food in &mut self.world.foods { food.position = rng.gen(); }`
loop at the end of `Simulation::evolve`: every food gets a fresh random
position, two draws per food, in order. -/
def randomizeFoods : Rng → List Food → List Food × Rng
  | rng, [] => ([], rng)
  | rng, _ :: fs =>
    let fx := rng.next
    let fy := fx.2.next
    let rest := randomizeFoods fy.2 fs
    (⟨(fx.1, fy.1)⟩ :: rest.1, rest.2)

/-- The `new_population.into_iter().map(|i| i.into_animal(rng, settings))`
reconstruction loop of `Simulation::evolve`. -/
def intoAnimals (E : Externals) (settings : Config) :
    List AnimalIndividual → Rng → List Animal × Rng
  | [], rng => ([], rng)
  | ind :: inds, rng =>
    let r1 := animalFromChromosome E settings rng ind.chromosome
    let rest := intoAnimals E settings inds r1.2
    (r1.1 :: rest.1, rest.2)

/-- `Simulation::evolve` (src/libs/simulation/src/lib.rs:80-115): reset the
age, convert the population to individuals, run the genetic algorithm,
rebuild the animals from the new genomes, and randomize every food
position. -/
def simEvolve (E : Externals) (settings : Config) (rng : Rng)
    (sim : Simulation) : Statistics × Simulation × Rng :=
  let sim0 := { sim with age := 0 }
  let currentPopulation := sim0.world.animals.map animalToIndividual
  let r := gaEvolve animalIndividualOps sim0.ga rng currentPopulation
  let r2 := intoAnimals E settings r.1.1 r.2
  let r3 := randomizeFoods r2.2 sim0.world.foods
  (r.1.2,
   { sim0 with world := { sim0.world with animals := r2.1, foods := r3.1 } },
   r3.2)

/-- `Simulation::step` (src/libs/simulation/src/lib.rs:60-70): movement,
brain, collision, age increment, and `evolve` exactly when the incremented
age exceeds `max_generation`. -/
def simStep (E : Externals) (settings : Config) (rng : Rng)
    (sim : Simulation) : Option Statistics × Simulation × Rng :=
  let s1 := calcMovement E sim
  let s2 := calcBrain E s1
  let r3 := calcCollision E rng s2
  let s4 : Simulation := { r3.1 with age := r3.1.age + 1 }
  if s4.config.max_generation < s4.age then
    let r5 := simEvolve E settings r3.2 s4
    (some r5.1, r5.2.1, r5.2.2)
  else
    (none, s4, r3.2)

/- ------------------------------------------------------------------ -/
/- Helper lemmas for clamping, wrapping and the step loops             -/
/- ------------------------------------------------------------------ -/

lemma f32clamp_mem (v lo hi : ℚ) (h : lo ≤ hi) :
    lo ≤ f32clamp v lo hi ∧ f32clamp v lo hi ≤ hi := by
  unfold f32clamp
  split_ifs with h1 h2
  · exact ⟨le_refl lo, h⟩
  · exact ⟨h, le_refl hi⟩
  · exact ⟨le_of_not_lt h1, le_of_not_lt h2⟩

lemma naWrap_mem (val lo hi : ℚ) (h : lo < hi) :
    lo ≤ naWrap val lo hi ∧ naWrap val lo hi ≤ hi := by
  have hw : (0 : ℚ) < hi - lo := by linarith
  unfold naWrap
  dsimp only
  split_ifs with h1 h2
  · have hk1 : (lo - val) / (hi - lo) ≤ ((⌈(lo - val) / (hi - lo)⌉ : ℤ) : ℚ) :=
      Int.le_ceil _
    have hk2 : ((⌈(lo - val) / (hi - lo)⌉ : ℤ) : ℚ)
        < (lo - val) / (hi - lo) + 1 := Int.ceil_lt_add_one _
    have e1 : lo - val ≤ ((⌈(lo - val) / (hi - lo)⌉ : ℤ) : ℚ) * (hi - lo) :=
      (div_le_iff₀ hw).mp hk1
    have e2 : (((⌈(lo - val) / (hi - lo)⌉ : ℤ) : ℚ) - 1) * (hi - lo) < lo - val := by
      have hstep : ((⌈(lo - val) / (hi - lo)⌉ : ℤ) : ℚ) - 1
          < (lo - val) / (hi - lo) := by linarith
      exact (lt_div_iff₀ hw).mp hstep
    constructor <;> nlinarith
  · have hk1 : (val - hi) / (hi - lo) ≤ ((⌈(val - hi) / (hi - lo)⌉ : ℤ) : ℚ) :=
      Int.le_ceil _
    have hk2 : ((⌈(val - hi) / (hi - lo)⌉ : ℤ) : ℚ)
        < (val - hi) / (hi - lo) + 1 := Int.ceil_lt_add_one _
    have e1 : val - hi ≤ ((⌈(val - hi) / (hi - lo)⌉ : ℤ) : ℚ) * (hi - lo) :=
      (div_le_iff₀ hw).mp hk1
    have e2 : (((⌈(val - hi) / (hi - lo)⌉ : ℤ) : ℚ) - 1) * (hi - lo) < val - hi := by
      have hstep : ((⌈(val - hi) / (hi - lo)⌉ : ℤ) : ℚ) - 1
          < (val - hi) / (hi - lo) := by linarith
      exact (lt_div_iff₀ hw).mp hstep
    constructor <;> nlinarith
  · exact ⟨le_of_not_lt h1, le_of_not_lt h2⟩

lemma mem_zipWith {α β γ : Type} (f : α → β → γ) :
    ∀ (l1 : List α) (l2 : List β) (c : γ), c ∈ List.zipWith f l1 l2 →
      ∃ x y, c = f x y := by
  intro l1
  induction l1 with
  | nil => intro l2 c h; simp at h
  | cons x xs ih =>
    intro l2 c h
    cases l2 with
    | nil => simp at h
    | cons y ys =>
      rw [List.zipWith_cons_cons] at h
      rcases List.mem_cons.mp h with h | h
      · exact ⟨x, y, h⟩
      · exact ih ys c h

lemma collideFoods_foods_length (E : Externals) :
    ∀ (foods : List Food) (a : Animal) (rng : Rng),
      (collideFoods E a foods rng).1.length = foods.length := by
  intro foods
  induction foods with
  | nil => intro a rng; rfl
  | cons food fs ih =>
    intro a rng
    unfold collideFoods
    split_ifs
    · simp only [List.length_cons, ih]
    · simp only [List.length_cons, ih]

lemma collideAnimals_foods_length (E : Externals) :
    ∀ (animals : List Animal) (foods : List Food) (rng : Rng),
      (collideAnimals E animals foods rng).2.1.length = foods.length := by
  intro animals
  induction animals with
  | nil => intro foods rng; rfl
  | cons a rest ih =>
    intro foods rng
    unfold collideAnimals
    dsimp only
    rw [ih]
    exact collideFoods_foods_length E foods a rng

lemma randomizeFoods_spec :
    ∀ (foods : List Food) (rng : Rng),
      (randomizeFoods rng foods).1.length = foods.length
      ∧ ∀ i, i < foods.length →
          (((randomizeFoods rng foods).1).getD i ⟨(0, 0)⟩).position
            = (rng.seq (rng.idx + 2 * i), rng.seq (rng.idx + 2 * i + 1)) := by
  intro foods
  induction foods with
  | nil =>
    intro rng
    exact ⟨rfl, fun i hi => absurd hi (by simp)⟩
  | cons food fs ih =>
    intro rng
    unfold randomizeFoods
    dsimp only [Rng.next]
    have hrec := ih ⟨rng.seq, rng.idx + 1 + 1⟩
    refine ⟨by simp only [List.length_cons, hrec.1], ?_⟩
    intro i hi
    cases i with
    | zero => rfl
    | succ j =>
      simp only [List.getD_cons_succ]
      have hj := hrec.2 j (by simpa using Nat.lt_of_succ_lt_succ hi)
      rw [hj]
      have e1 : rng.idx + 1 + 1 + 2 * j = rng.idx + 2 * (j + 1) := by omega
      rw [e1]

/- ------------------------------------------------------------------ -/
/- Claim theorems for the orchestrator                                 -/
/- ------------------------------------------------------------------ -/

/-- C10: provided speed_min ≤ speed_max, after every calc_brain call every
animal's speed lies in [speed_min, speed_max], because the updated speed is
clamped to that interval. -/
theorem brain_speed_clamped (E : Externals) (sim : Simulation)
    (h : sim.config.speed_min ≤ sim.config.speed_max) :
    ∀ a ∈ (calcBrain E sim).world.animals,
      sim.config.speed_min ≤ a.speed ∧ a.speed ≤ sim.config.speed_max := by
  intro a ha
  simp only [calcBrain, List.mem_map] at ha
  obtain ⟨b, _, rfl⟩ := ha
  exact f32clamp_mem _ _ _ h

/-- The simplest strategies of the right shape, standing in for the boxed
trait objects in concrete evaluations. -/
def trivialGA : GAMethods AnimalIndividual :=
  { select := fun r pop => (pop.headD ⟨0, []⟩, r)
    crossover := fun r a _ => (a, r)
    mutate := fun r c => (c, r) }

def c10Config : SimulationConfig :=
  { speed_max := 2, speed_min := 0, speed_accel := 1, rotation_accel := 1,
    mutation_chance := 0, mutation_weight := 0, max_generation := 0 }

def c10Sim : Simulation :=
  { world := ⟨[plainAnimal (0, 0)], [], ⟨1, 0⟩⟩, ga := trivialGA, age := 0,
    config := c10Config }

/-- Witness for C10 at a one-animal world with speed bounds [0, 2]. -/
theorem brain_speed_clamped_witness :
    c10Sim.config.speed_min
        ≤ (calcBrainAnimal dummyExt c10Sim.config c10Sim.world.foods
            (plainAnimal (0, 0))).speed
    ∧ (calcBrainAnimal dummyExt c10Sim.config c10Sim.world.foods
          (plainAnimal (0, 0))).speed
        ≤ c10Sim.config.speed_max := by
  have h := brain_speed_clamped dummyExt c10Sim
    (by norm_num [c10Sim, c10Config])
  exact h _ (by simp [calcBrain, c10Sim])

def c9Ext : Externals :=
  { norm := fun v => if v = ((0 : ℚ), (1 : ℚ)) then 1 else 0
    normalize := fun v => v
    distance := fun _ _ => 0
    angleTo := fun _ => 0
    rotApply := fun _ v => v
    pi := 4
    brainFromChromosome := fun _ => ⟨[]⟩ }

def c9Sim : Simulation :=
  { world := ⟨[plainAnimal (0, 0)], [], ⟨1, 0⟩⟩, ga := trivialGA, age := 0,
    config := c10Config }

/-- C9 counterexample: a single animal at the origin with rotation 0 and
speed 1 (the rotation application and the norm of (0, 1) instantiated with
their honest values at the vectors reached) ends the movement step at
position (0, 1): the y coordinate is exactly 1, which lies outside the
claimed half-open interval [0, 1).  `na::wrap` keeps both endpoints. -/
theorem movement_wrap_counterexample :
    ((calcMovement c9Ext c9Sim).world.animals.map (fun a => a.position))
      = [((0 : ℚ), (1 : ℚ))]
    ∧ ¬ ((1 : ℚ) < 1) := by
  constructor
  · norm_num [calcMovement, movementDelta, moveAnimal, calcCoherence,
      calcSeparation, calcAlignment, otherAnimals, naWrap, c9Sim, c9Ext,
      plainAnimal, List.filter]
  · norm_num

/-- C9 (amended): after every calc_movement, every animal's position
coordinates x and y lie in the CLOSED interval [0, 1]: `na::wrap(_, 0.0,
1.0)` returns a value in [0, 1] and both endpoints are attainable, so the
claimed half-open interval [0, 1) is wrong exactly at the value 1. -/
theorem movement_positions_wrapped (E : Externals) (sim : Simulation) :
    ∀ a ∈ (calcMovement E sim).world.animals,
      0 ≤ a.position.1 ∧ a.position.1 ≤ 1
      ∧ 0 ≤ a.position.2 ∧ a.position.2 ≤ 1 := by
  intro a ha
  simp only [calcMovement] at ha
  obtain ⟨x, d, hc⟩ := mem_zipWith _ _ _ _ ha
  subst hc
  dsimp only [moveAnimal]
  have h01 : (0 : ℚ) < 1 := by norm_num
  exact ⟨(naWrap_mem _ 0 1 h01).1, (naWrap_mem _ 0 1 h01).2,
         (naWrap_mem _ 0 1 h01).1, (naWrap_mem _ 0 1 h01).2⟩

/-- Witness for C9 (amended) at the concrete one-animal world. -/
theorem movement_positions_wrapped_witness :
    0 ≤ ((calcMovement c9Ext c9Sim).world.animals.headD
          (plainAnimal (0, 0))).position.1
    ∧ ((calcMovement c9Ext c9Sim).world.animals.headD
          (plainAnimal (0, 0))).position.2 ≤ 1 := by
  have h := movement_positions_wrapped c9Ext c9Sim
  have hm := h ((calcMovement c9Ext c9Sim).world.animals.headD
          (plainAnimal (0, 0))) (by simp [calcMovement, c9Sim])
  exact ⟨hm.1, hm.2.2.2⟩

/-- The simulation state and random source after the movement, brain and
collision phases of one `step` — the state whose incremented age `step`
tests against `max_generation`. -/
def stepPostCollision (E : Externals) (rng : Rng) (sim : Simulation) :
    Simulation × Rng :=
  calcCollision E rng (calcBrain E (calcMovement E sim))

/-- The random source as it stands inside `Simulation::evolve` at the moment
the food-randomizing loop begins: after the genetic algorithm has consumed
its selection/crossover/mutation draws and the animal reconstruction has
consumed its position/rotation draws, in the order the source performs
them. -/
def stepFoodRng (E : Externals) (settings : Config) (rng : Rng)
    (sim : Simulation) : Rng :=
  let pc := stepPostCollision E rng sim
  let ga := gaEvolve animalIndividualOps pc.1.ga pc.2
    (pc.1.world.animals.map animalToIndividual)
  (intoAnimals E settings ga.1.1 ga.2).2

/-- C8: `Simulation::step` returns Some(Statistics) exactly when the age
counter, after the increment performed by the step, exceeds max_generation,
and None on every other tick; on a boundary tick the returned simulation has
age 0 and its food list is exactly the post-collision food list re-randomized
in place: food i's position equals the pair of consecutive draws `2*i` and
`2*i + 1` of the concrete random source `stepFoodRng` reached after the
genetic algorithm and the animal reconstruction (two fresh draws per food,
in order). -/
theorem step_boundary (E : Externals) (settings : Config) (rng : Rng)
    (sim : Simulation) :
    ((simStep E settings rng sim).1.isSome
        ↔ sim.config.max_generation < sim.age + 1)
    ∧ ((simStep E settings rng sim).1.isSome = true →
        (simStep E settings rng sim).2.1.age = 0
        ∧ (simStep E settings rng sim).2.1.world.foods
            = (randomizeFoods (stepFoodRng E settings rng sim)
                (stepPostCollision E rng sim).1.world.foods).1
        ∧ (simStep E settings rng sim).2.1.world.foods.length
            = sim.world.foods.length
        ∧ ∀ i, i < sim.world.foods.length →
            (((simStep E settings rng sim).2.1.world.foods).getD i
                ⟨(0, 0)⟩).position
              = ((stepFoodRng E settings rng sim).seq
                   ((stepFoodRng E settings rng sim).idx + 2 * i),
                 (stepFoodRng E settings rng sim).seq
                   ((stepFoodRng E settings rng sim).idx + 2 * i + 1))) := by
  have hlenc : (calcCollision E rng (calcBrain E (calcMovement E sim))).1.world.foods.length
      = sim.world.foods.length :=
    collideAnimals_foods_length E _ _ _
  have hlenc2 : (stepPostCollision E rng sim).1.world.foods.length
      = sim.world.foods.length := hlenc
  by_cases hc : sim.config.max_generation < sim.age + 1
  · have hstep : simStep E settings rng sim
        = (some (simEvolve E settings
            (calcCollision E rng (calcBrain E (calcMovement E sim))).2
            { (calcCollision E rng (calcBrain E (calcMovement E sim))).1 with
              age := (calcCollision E rng (calcBrain E (calcMovement E sim))).1.age + 1 }).1,
           (simEvolve E settings
            (calcCollision E rng (calcBrain E (calcMovement E sim))).2
            { (calcCollision E rng (calcBrain E (calcMovement E sim))).1 with
              age := (calcCollision E rng (calcBrain E (calcMovement E sim))).1.age + 1 }).2.1,
           (simEvolve E settings
            (calcCollision E rng (calcBrain E (calcMovement E sim))).2
            { (calcCollision E rng (calcBrain E (calcMovement E sim))).1 with
              age := (calcCollision E rng (calcBrain E (calcMovement E sim))).1.age + 1 }).2.2) := by
      unfold simStep
      dsimp only
      rw [if_pos (show (calcCollision E rng (calcBrain E (calcMovement E sim))).1.config.max_generation
            < (calcCollision E rng (calcBrain E (calcMovement E sim))).1.age + 1 from hc)]
    rw [hstep]
    have hspec := randomizeFoods_spec
      (stepPostCollision E rng sim).1.world.foods
      (stepFoodRng E settings rng sim)
    obtain ⟨hlen2, hpos⟩ := hspec
    refine ⟨by simpa using hc, fun _ => ⟨rfl, rfl, ?_, ?_⟩⟩
    · exact hlen2.trans hlenc2
    · intro i hi
      exact hpos i (by rw [hlenc2]; exact hi)
  · have hstep : simStep E settings rng sim
        = (none,
           { (calcCollision E rng (calcBrain E (calcMovement E sim))).1 with
             age := (calcCollision E rng (calcBrain E (calcMovement E sim))).1.age + 1 },
           (calcCollision E rng (calcBrain E (calcMovement E sim))).2) := by
      unfold simStep
      dsimp only
      rw [if_neg (show ¬ (calcCollision E rng (calcBrain E (calcMovement E sim))).1.config.max_generation
            < (calcCollision E rng (calcBrain E (calcMovement E sim))).1.age + 1 from fun h2 => hc h2)]
    rw [hstep]
    refine ⟨by simpa using hc, fun hfalse => ?_⟩
    exact absurd hfalse (by simp)

def c8Settings : Config :=
  { simulation := c10Config, eye := ⟨1, 1, 1⟩, world := ⟨1, 1⟩ }

def c8Sim : Simulation :=
  { world := ⟨[plainAnimal (0, 0)], [⟨(5, 5)⟩], ⟨1, 1⟩⟩, ga := trivialGA,
    age := 0, config := c10Config }

/-- Witness for C8: with max_generation 0, the very first step is a boundary
tick — the step returns Some and the returned simulation has age 0. -/
theorem step_boundary_witness :
    (simStep dummyExt c8Settings zeroRng c8Sim).1.isSome = true
    ∧ (simStep dummyExt c8Settings zeroRng c8Sim).2.1.age = 0 := by
  have h := step_boundary dummyExt c8Settings zeroRng c8Sim
  have hsome : (simStep dummyExt c8Settings zeroRng c8Sim).1.isSome = true :=
    h.1.mpr (by decide)
  exact ⟨hsome, (h.2 hsome).1⟩
